import Mathlib

/-!
Shallow embedding of the battery manager's core algorithms
(`src/core/bess/algorithms.py`, `schedule.py`, `growatt_schedule.py`,
`consumption_manager.py`, `power_monitor.py`) and proofs of the
specification's claims about them.  Machine floats are modelled as
rationals; Python lists as `List ℚ` with positional update; the
`discharge_capacities` dict (keys `0..n-1`) as a `List ℚ`.
-/

namespace BatteryManager

/-- A trade dictionary as built by `create_trade` in `algorithms.py`. -/
structure Trade where
  charge_hour : ℕ
  discharge_hour : ℕ
  charge_price : ℚ
  discharge_price : ℚ
  cycle_cost : ℚ
  profit_per_kwh : ℚ
deriving DecidableEq, Repr

/-- `create_trade` from `algorithms.py`: `profit_per_kwh` is
`discharge_price - charge_price - cycle_cost`. -/
def create_trade (charge_hour discharge_hour : ℕ)
    (charge_price discharge_price cycle_cost : ℚ) : Trade :=
  { charge_hour := charge_hour
    discharge_hour := discharge_hour
    charge_price := charge_price
    discharge_price := discharge_price
    cycle_cost := cycle_cost
    profit_per_kwh := discharge_price - charge_price - cycle_cost }

/-- The double loop of `find_profitable_trades` before the threshold filter:
for every `charge_hour` and every later `discharge_hour`, one trade. -/
def all_trades (prices : List ℚ) (cycle_cost : ℚ) : List Trade :=
  (List.range prices.length).flatMap fun c =>
    ((List.range prices.length).filter fun d => c < d).map fun d =>
      create_trade c d (prices.getD c 0) (prices.getD d 0) cycle_cost

/-- One bounded pass of the bubble sort in `find_profitable_trades`:
at most `k` adjacent compare-and-swap steps (descending by
`profit_per_kwh`, swapping only on strict `<`). -/
def bubble_pass : ℕ → List Trade → List Trade
  | 0, l => l
  | Nat.succ k, x :: y :: rest =>
      if x.profit_per_kwh < y.profit_per_kwh then
        y :: bubble_pass k (x :: rest)
      else
        x :: bubble_pass k (y :: rest)
  | Nat.succ _, l => l

/-- The bubble sort of `find_profitable_trades`: `n` passes, pass `i`
limited to `n - i - 1` compare-and-swap steps. -/
def bubble_sort (l : List Trade) : List Trade :=
  (List.range l.length).foldl (fun acc i => bubble_pass (l.length - i - 1) acc) l

/-- `find_profitable_trades(prices, cycle_cost, min_profit_threshold)`:
keep the chronological pairs whose profit meets the threshold, then
bubble-sort descending by profit per kWh. -/
def find_profitable_trades (prices : List ℚ)
    (cycle_cost min_profit_threshold : ℚ) : List Trade :=
  bubble_sort ((all_trades prices cycle_cost).filter
    fun t => min_profit_threshold ≤ t.profit_per_kwh)

/-- Mutable state of the greedy placement loop in `optimize_battery`:
`state_of_energy` (length `n+1`), `actions` (length `n`), the
`discharge_capacities` dict over hours `0..n-1`, the remaining
`energy_for_discharge` budget, and the log of executed
(charge hour, discharge hour) pairs (mirroring the per-trade
"Trade executed" log line). -/
structure OptState where
  state_of_energy : List ℚ
  actions : List ℚ
  discharge_capacities : List ℚ
  energy_for_discharge : ℚ
  committed : List (ℕ × ℕ)
deriving DecidableEq, Repr

/-- Apply `f` to every list element whose index is strictly greater
than `start`, the index of the first element being `i`. -/
def update_from (start : ℕ) (f : ℚ → ℚ) : ℕ → List ℚ → List ℚ
  | _, [] => []
  | i, v :: rest => (if start < i then f v else v) :: update_from start f (i + 1) rest

/-- `for h in range(c+1, n+1): soe[h] = min(soe[h] + amt, total)`. -/
def apply_charge (soe : List ℚ) (c : ℕ) (amt total : ℚ) : List ℚ :=
  update_from c (fun v => min (v + amt) total) 0 soe

/-- `for h in range(d+1, n+1): soe[h] = max(soe[h] - amt, reserved)`. -/
def apply_discharge (soe : List ℚ) (d : ℕ) (amt reserved : ℚ) : List ℚ :=
  update_from d (fun v => max (v - amt) reserved) 0 soe

/-- The secondary-discharge scan of `optimize_battery`: walk the sorted
trade list, taking trades with the same charge hour, a different
discharge hour, remaining capacity and positive profit, until the
residual energy is exhausted.  The capacities dict is not modified
while the plan is being built. -/
def build_secondary (primary : Trade) (caps : List ℚ) :
    List Trade → ℚ → List (ℕ × ℚ)
  | [], _ => []
  | s :: rest, etd =>
      if etd ≤ 0 then []
      else if s.discharge_hour ≠ primary.discharge_hour ∧
          s.charge_hour = primary.charge_hour ∧
          0 < caps.getD s.discharge_hour 0 ∧
          0 < s.profit_per_kwh then
        let amt := min (caps.getD s.discharge_hour 0) etd
        if 0 < amt then (s.discharge_hour, amt) :: build_secondary primary caps rest (etd - amt)
        else build_secondary primary caps rest etd
      else build_secondary primary caps rest etd

/-- The discharge plan of one primary trade: the primary discharge
first (if that hour still has capacity), then secondary discharges for
any residual energy. -/
def build_plan (trades : List Trade) (primary : Trade) (caps : List ℚ)
    (charge_amount : ℚ) : List (ℕ × ℚ) :=
  let remaining := caps.getD primary.discharge_hour 0
  if 0 < remaining then
    let pd := min remaining charge_amount
    let etd := charge_amount - pd
    (primary.discharge_hour, pd) ::
      (if 0 < etd then build_secondary primary caps trades etd else [])
  else if 0 < charge_amount then build_secondary primary caps trades charge_amount
  else []

/-- `total_discharge`: sum of the plan's discharge amounts. -/
def plan_total (plan : List (ℕ × ℚ)) : ℚ :=
  plan.foldl (fun acc p => acc + p.2) 0

/-- One planned `(discharge_hour, amount)` applied to the state:
subtract from `actions`, decrement the capacity dict, and propagate
`state_of_energy` with the reserved floor. -/
def discharge_step (reserved : ℚ) (s : OptState) (p : ℕ × ℚ) : OptState :=
  { s with
    actions := s.actions.set p.1 (s.actions.getD p.1 0 - p.2)
    discharge_capacities :=
      s.discharge_capacities.set p.1 (s.discharge_capacities.getD p.1 0 - p.2)
    state_of_energy := apply_discharge s.state_of_energy p.1 p.2 reserved }

/-- Apply the discharge side of an executed trade, one planned
discharge at a time. -/
def exec_discharges (reserved : ℚ) (st : OptState) (plan : List (ℕ × ℚ)) : OptState :=
  plan.foldl (discharge_step reserved) st

/-- The body of `optimize_battery`'s main loop for one primary trade:
skip if the charge hour is taken or full, plan discharges, and commit
when the plan covers at least 80% of the charge. -/
def trade_step (trades : List Trade)
    (total_capacity reserved_capacity max_charge_rate : ℚ)
    (st : OptState) (primary : Trade) : OptState :=
  if st.actions.getD primary.charge_hour 0 ≠ 0 then st
  else
    let current_soe := st.state_of_energy.getD primary.charge_hour 0
    let charge_amount := min max_charge_rate (total_capacity - current_soe)
    if charge_amount ≤ 0 then st
    else
      let plan := build_plan trades primary st.discharge_capacities charge_amount
      if plan ≠ [] ∧ charge_amount * (4/5) ≤ plan_total plan then
        let st1 : OptState :=
          { st with
            actions := st.actions.set primary.charge_hour charge_amount
            state_of_energy :=
              apply_charge st.state_of_energy primary.charge_hour charge_amount
                total_capacity }
        let st2 := exec_discharges reserved_capacity st1 plan
        { st2 with
          energy_for_discharge := st2.energy_for_discharge - charge_amount
          committed := st2.committed ++ plan.map fun p => (primary.charge_hour, p.1) }
      else st

/-- The main loop over the sorted trades, with the early `break` when
the `energy_for_discharge` budget is exhausted. -/
def run_trades (trades : List Trade)
    (total_capacity reserved_capacity max_charge_rate : ℚ) :
    List Trade → OptState → OptState
  | [], st => st
  | t :: rest, st =>
      if st.energy_for_discharge ≤ 0 then st
      else run_trades trades total_capacity reserved_capacity max_charge_rate rest
        (trade_step trades total_capacity reserved_capacity max_charge_rate st t)

/-- The initial state of `optimize_battery`: `state_of_energy`
initialised to `reserved_capacity` (n+1 entries), `actions` to zero,
every hour's discharge capacity to `hourly_consumption`. -/
def init_state (n : ℕ) (total_capacity reserved_capacity hourly_consumption : ℚ) :
    OptState :=
  { state_of_energy := List.replicate (n + 1) reserved_capacity
    actions := List.replicate n 0
    discharge_capacities := List.replicate n hourly_consumption
    energy_for_discharge := total_capacity - reserved_capacity
    committed := [] }

/-- The trade-placement phase of `optimize_battery`.  Note the source
calls `find_profitable_trades(prices, cycle_cost)`: the threshold used
is that function's default `0.2`. -/
def optimize_battery_state (prices : List ℚ)
    (total_capacity reserved_capacity cycle_cost hourly_consumption
      max_charge_rate : ℚ) : OptState :=
  let trades := find_profitable_trades prices cycle_cost (1/5)
  run_trades trades total_capacity reserved_capacity max_charge_rate trades
    (init_state prices.length total_capacity reserved_capacity hourly_consumption)

/-- Per-hour cost record of `optimize_battery`'s accounting loop. -/
structure HourCost where
  base_cost : ℚ
  grid_cost : ℚ
  battery_cost : ℚ
  total_cost : ℚ
  savings : ℚ
deriving DecidableEq, Repr

/-- One iteration of the cost loop: charging/standby pays for
consumption plus the action at the hour's price plus cycle wear;
discharging pays only for the non-negative net grid draw. -/
def hour_cost (price action hourly_consumption cycle_cost : ℚ) : HourCost :=
  let hour_base_cost := hourly_consumption * price
  let grid_cost :=
    if 0 ≤ action then (hourly_consumption + action) * price
    else max 0 (hourly_consumption + action) * price
  let battery_cost := if 0 ≤ action then action * cycle_cost else 0
  let total_cost := grid_cost + battery_cost
  { base_cost := hour_base_cost
    grid_cost := grid_cost
    battery_cost := battery_cost
    total_cost := total_cost
    savings := hour_base_cost - total_cost }

/-- The result dictionary of `optimize_battery`. -/
structure OptResult where
  state_of_energy : List ℚ
  actions : List ℚ
  base_cost : ℚ
  optimized_cost : ℚ
  cost_savings : ℚ
  hourly_costs : List HourCost
deriving DecidableEq, Repr

/-- `optimize_battery(prices, total_capacity, reserved_capacity,
cycle_cost, hourly_consumption, max_charge_rate)` from
`src/core/bess/algorithms.py` (source defaults: 30, 3, 0.5, 5.2, 6). -/
def optimize_battery (prices : List ℚ)
    (total_capacity reserved_capacity cycle_cost hourly_consumption
      max_charge_rate : ℚ) : OptResult :=
  let st := optimize_battery_state prices total_capacity reserved_capacity
    cycle_cost hourly_consumption max_charge_rate
  let costs := (List.range prices.length).map fun h =>
    hour_cost (prices.getD h 0) (st.actions.getD h 0) hourly_consumption cycle_cost
  { state_of_energy := st.state_of_energy
    actions := st.actions
    base_cost := (costs.map fun c => c.base_cost).sum
    optimized_cost := (costs.map fun c => c.total_cost).sum
    cost_savings := (costs.map fun c => c.base_cost).sum -
      (costs.map fun c => c.total_cost).sum
    hourly_costs := costs }

/-! ### List helper lemmas -/

theorem getD_set_self {l : List ℚ} {i : ℕ} {v : ℚ} (h : i < l.length) :
    (l.set i v).getD i 0 = v := by
  simp [List.getD, List.getElem?_set_self, h]

theorem getD_set_ne {l : List ℚ} {i j : ℕ} {v : ℚ} (h : i ≠ j) :
    (l.set i v).getD j 0 = l.getD j 0 := by
  simp [List.getD, List.getElem?_set_ne h]

theorem getD_of_length_le {l : List ℚ} {i : ℕ} (h : l.length ≤ i) :
    l.getD i 0 = 0 := by
  simp [List.getD, List.getElem?_eq_none h]

theorem getD_mem {l : List ℚ} {i : ℕ} (h : i < l.length) : l.getD i 0 ∈ l := by
  rw [List.getD_eq_getElem?_getD, List.getElem?_eq_getElem h]
  exact List.getElem_mem _

theorem getD_replicate {n i : ℕ} {v : ℚ} (h : i < n) :
    (List.replicate n v).getD i 0 = v := by
  rw [List.getD_eq_getElem?_getD, List.getElem?_eq_getElem (by simpa using h)]
  simp

/-! ### Properties of the enumerated and sorted trade lists -/

theorem all_trades_mem {prices : List ℚ} {cc : ℚ} {t : Trade}
    (h : t ∈ all_trades prices cc) :
    t.charge_hour < t.discharge_hour ∧ t.discharge_hour < prices.length ∧
      t.charge_price = prices.getD t.charge_hour 0 ∧
      t.discharge_price = prices.getD t.discharge_hour 0 ∧
      t.profit_per_kwh = t.discharge_price - t.charge_price - cc := by
  rcases List.mem_flatMap.mp h with ⟨c, _, hin⟩
  rcases List.mem_map.mp hin with ⟨d, hd, rfl⟩
  rcases List.mem_filter.mp hd with ⟨hdr, hcd⟩
  refine ⟨by simpa using hcd, List.mem_range.mp hdr, rfl, rfl, rfl⟩

theorem bubble_pass_perm (k : ℕ) (l : List Trade) : (bubble_pass k l).Perm l := by
  induction k generalizing l with
  | zero => simp [bubble_pass]
  | succ k ih =>
    match l with
    | [] => simp [bubble_pass]
    | [x] => simp [bubble_pass]
    | x :: y :: rest =>
      rw [bubble_pass]
      by_cases hxy : x.profit_per_kwh < y.profit_per_kwh
      · simp only [if_pos hxy]
        exact ((ih (x :: rest)).cons y).trans (List.Perm.swap x y rest)
      · simp only [if_neg hxy]
        exact (ih (y :: rest)).cons x

theorem bubble_sort_foldl_perm (rs : List ℕ) (n : ℕ) :
    ∀ acc l : List Trade, acc.Perm l →
      (rs.foldl (fun a i => bubble_pass (n - i - 1) a) acc).Perm l := by
  induction rs with
  | nil => intro acc l h; simpa using h
  | cons r rs ih =>
    intro acc l h
    simp only [List.foldl_cons]
    exact ih _ _ ((bubble_pass_perm _ acc).trans h)

theorem bubble_sort_perm (l : List Trade) : (bubble_sort l).Perm l :=
  bubble_sort_foldl_perm _ _ l l (List.Perm.refl l)

theorem find_profitable_trades_mem {prices : List ℚ} {cc thr : ℚ} {t : Trade}
    (h : t ∈ find_profitable_trades prices cc thr) :
    t ∈ all_trades prices cc ∧ thr ≤ t.profit_per_kwh := by
  have h1 := (bubble_sort_perm _).mem_iff.mp h
  rcases List.mem_filter.mp h1 with ⟨hmem, hthr⟩
  exact ⟨hmem, by simpa using hthr⟩

/-- The identity of a trade dictionary: its (charge hour, discharge hour)
pair.  The enumeration in `find_profitable_trades` produces each pair at
most once. -/
def tkey (t : Trade) : ℕ × ℕ := (t.charge_hour, t.discharge_hour)

theorem all_trades_key_nodup (prices : List ℚ) (cc : ℚ) :
    ((all_trades prices cc).map tkey).Nodup := by
  rw [all_trades, List.map_flatMap, List.nodup_flatMap]
  constructor
  · intro c _
    rw [List.map_map]
    refine List.Nodup.map ?_ (List.Nodup.filter _ (List.nodup_range _))
    intro a b hab
    simpa [tkey, create_trade] using congrArg Prod.snd hab
  · refine (List.pairwise_lt_range prices.length).imp ?_
    intro a b hab x hxa hxb
    simp only [List.map_map] at hxa hxb
    rcases List.mem_map.mp hxa with ⟨d1, _, rfl⟩
    rcases List.mem_map.mp hxb with ⟨d2, _, he⟩
    exact Nat.ne_of_lt hab ((congrArg Prod.fst he).symm)

theorem find_profitable_trades_key_nodup (prices : List ℚ) (cc thr : ℚ) :
    ((find_profitable_trades prices cc thr).map tkey).Nodup := by
  refine (((bubble_sort_perm _).map tkey).nodup_iff).mpr ?_
  exact ((List.filter_sublist _).map tkey).nodup (all_trades_key_nodup prices cc)

/-! ### Properties of the discharge plan -/

theorem build_secondary_mem {primary : Trade} {caps : List ℚ} :
    ∀ {ts : List Trade} {etd : ℚ} {p : ℕ × ℚ},
      p ∈ build_secondary primary caps ts etd →
      0 < p.2 ∧ p.2 ≤ caps.getD p.1 0 ∧ p.1 ≠ primary.discharge_hour ∧
        ∃ s ∈ ts, s.charge_hour = primary.charge_hour ∧ s.discharge_hour = p.1 := by
  intro ts
  induction ts with
  | nil => intro etd p h; simp [build_secondary] at h
  | cons s rest ih =>
    intro etd p h
    rw [build_secondary] at h
    rcases Decidable.em (etd ≤ 0) with h0 | h0
    · simp [h0] at h
    · rw [if_neg h0] at h
      rcases Decidable.em (s.discharge_hour ≠ primary.discharge_hour ∧
          s.charge_hour = primary.charge_hour ∧
          0 < caps.getD s.discharge_hour 0 ∧ 0 < s.profit_per_kwh) with hc | hc
      · rw [if_pos hc] at h
        simp only [] at h
        rcases Decidable.em (0 < min (caps.getD s.discharge_hour 0) etd) with ha | ha
        · rw [if_pos ha] at h
          rcases List.mem_cons.mp h with rfl | hrest
          · exact ⟨ha, min_le_left _ _, hc.1,
              ⟨s, List.mem_cons_self s rest, hc.2.1, rfl⟩⟩
          · rcases ih hrest with ⟨h1, h2, h3, s', hs', hc', hd'⟩
            exact ⟨h1, h2, h3, s', List.mem_cons_of_mem _ hs', hc', hd'⟩
        · rw [if_neg ha] at h
          rcases ih h with ⟨h1, h2, h3, s', hs', hc', hd'⟩
          exact ⟨h1, h2, h3, s', List.mem_cons_of_mem _ hs', hc', hd'⟩
      · rw [if_neg hc] at h
        rcases ih h with ⟨h1, h2, h3, s', hs', hc', hd'⟩
        exact ⟨h1, h2, h3, s', List.mem_cons_of_mem _ hs', hc', hd'⟩

theorem build_plan_mem {trades : List Trade} {primary : Trade} {caps : List ℚ}
    {ca : ℚ} (hca : 0 < ca) {p : ℕ × ℚ} (h : p ∈ build_plan trades primary caps ca) :
    0 < p.2 ∧ p.2 ≤ caps.getD p.1 0 ∧
      (p.1 = primary.discharge_hour ∨
        ∃ s ∈ trades, s.charge_hour = primary.charge_hour ∧
          s.discharge_hour = p.1) := by
  rw [build_plan] at h
  simp only [] at h
  rcases Decidable.em (0 < caps.getD primary.discharge_hour 0) with hr | hr
  · rw [if_pos hr] at h
    rcases List.mem_cons.mp h with rfl | hrest
    · exact ⟨lt_min hr hca, min_le_left _ _, Or.inl rfl⟩
    · rcases Decidable.em (0 < ca - min (caps.getD primary.discharge_hour 0) ca) with
        he | he
      · rw [if_pos he] at hrest
        rcases build_secondary_mem hrest with ⟨h1, h2, _, s', hs', hc', hd'⟩
        exact ⟨h1, h2, Or.inr ⟨s', hs', hc', hd'⟩⟩
      · rw [if_neg he] at hrest
        simp at hrest
  · rw [if_neg hr, if_pos hca] at h
    rcases build_secondary_mem h with ⟨h1, h2, _, s', hs', hc', hd'⟩
    exact ⟨h1, h2, Or.inr ⟨s', hs', hc', hd'⟩⟩

theorem build_secondary_hours_nodup {primary : Trade} {caps : List ℚ} :
    ∀ {ts : List Trade} {etd : ℚ}, (ts.map tkey).Nodup →
      ((build_secondary primary caps ts etd).map Prod.fst).Nodup := by
  intro ts
  induction ts with
  | nil => intro etd _; simp [build_secondary]
  | cons s rest ih =>
    intro etd hnd
    rw [List.map_cons, List.nodup_cons] at hnd
    rcases hnd with ⟨hks, hrest⟩
    rw [build_secondary]
    rcases Decidable.em (etd ≤ 0) with h0 | h0
    · simp [h0]
    · rw [if_neg h0]
      rcases Decidable.em (s.discharge_hour ≠ primary.discharge_hour ∧
          s.charge_hour = primary.charge_hour ∧
          0 < caps.getD s.discharge_hour 0 ∧ 0 < s.profit_per_kwh) with hc | hc
      · rw [if_pos hc]
        simp only []
        rcases Decidable.em (0 < min (caps.getD s.discharge_hour 0) etd) with ha | ha
        · rw [if_pos ha]
          rw [List.map_cons, List.nodup_cons]
          refine ⟨?_, ih hrest⟩
          intro hmem
          rcases List.mem_map.mp hmem with ⟨p, hp, hfst⟩
          rcases build_secondary_mem hp with ⟨_, _, _, s', hs', hc', hd'⟩
          refine hks ?_
          have : tkey s' = tkey s := by
            simp [tkey, hc', hd', hfst, hc.2.1]
          exact this ▸ List.mem_map_of_mem tkey hs'
        · rw [if_neg ha]; exact ih hrest
      · rw [if_neg hc]; exact ih hrest

theorem build_plan_hours_nodup {trades : List Trade} {primary : Trade}
    {caps : List ℚ} {ca : ℚ} (hnd : (trades.map tkey).Nodup) :
    ((build_plan trades primary caps ca).map Prod.fst).Nodup := by
  rw [build_plan]
  simp only []
  rcases Decidable.em (0 < caps.getD primary.discharge_hour 0) with hr | hr
  · rw [if_pos hr, List.map_cons, List.nodup_cons]
    constructor
    · intro hmem
      rcases Decidable.em (0 < ca - min (caps.getD primary.discharge_hour 0) ca) with
        he | he
      · rw [if_pos he] at hmem
        rcases List.mem_map.mp hmem with ⟨p, hp, hfst⟩
        exact absurd hfst (build_secondary_mem hp).2.2.1
      · rw [if_neg he] at hmem
        simp at hmem
    · rcases Decidable.em (0 < ca - min (caps.getD primary.discharge_hour 0) ca) with
        he | he
      · rw [if_pos he]; exact build_secondary_hours_nodup hnd
      · rw [if_neg he]; simp
  · rw [if_neg hr]
    rcases Decidable.em (0 < ca) with hca | hca
    · rw [if_pos hca]; exact build_secondary_hours_nodup hnd
    · rw [if_neg hca]; simp

/-! ### State-of-energy bounds (claim C1) -/

theorem update_from_bound {P : ℚ → Prop} {f : ℚ → ℚ} {start : ℕ}
    (hf : ∀ v, P v → P (f v)) :
    ∀ {l : List ℚ} {i : ℕ}, (∀ v ∈ l, P v) → ∀ x ∈ update_from start f i l, P x := by
  intro l
  induction l with
  | nil => intro i _ x hx; simp [update_from] at hx
  | cons v rest ih =>
    intro i hl x hx
    rw [update_from] at hx
    rcases List.mem_cons.mp hx with rfl | hx'
    · have hv := hl v (List.mem_cons_self v rest)
      rcases Decidable.em (start < i) with hi | hi
      · rw [if_pos hi]; exact hf v hv
      · rw [if_neg hi]; exact hv
    · exact ih (fun w hw => hl w (List.mem_cons_of_mem _ hw)) x hx'

/-- Every entry of the trajectory stays in `[rc, tc]`. -/
def soe_bounded (rc tc : ℚ) (l : List ℚ) : Prop := ∀ x ∈ l, rc ≤ x ∧ x ≤ tc

theorem apply_charge_bounded {rc tc amt : ℚ} {soe : List ℚ} {c : ℕ}
    (hrt : rc ≤ tc) (hamt : 0 ≤ amt) (h : soe_bounded rc tc soe) :
    soe_bounded rc tc (apply_charge soe c amt tc) := by
  refine update_from_bound ?_ h
  intro v hv
  exact ⟨le_min (by linarith [hv.1]) hrt, min_le_right _ _⟩

theorem apply_discharge_bounded {rc tc amt : ℚ} {soe : List ℚ} {d : ℕ}
    (hrt : rc ≤ tc) (hamt : 0 ≤ amt) (h : soe_bounded rc tc soe) :
    soe_bounded rc tc (apply_discharge soe d amt rc) := by
  refine update_from_bound ?_ h
  intro v hv
  exact ⟨le_max_right _ _, max_le (by linarith [hv.2]) hrt⟩

theorem exec_discharges_soe_bounded {rc tc : ℚ} (hrt : rc ≤ tc) :
    ∀ {plan : List (ℕ × ℚ)} {st : OptState}, (∀ p ∈ plan, 0 ≤ p.2) →
      soe_bounded rc tc st.state_of_energy →
      soe_bounded rc tc (exec_discharges rc st plan).state_of_energy := by
  intro plan
  induction plan with
  | nil => intro st _ h; simpa [exec_discharges] using h
  | cons p rest ih =>
    intro st hpos h
    rw [exec_discharges, List.foldl_cons]
    refine ih (fun q hq => hpos q (List.mem_cons_of_mem _ hq)) ?_
    exact apply_discharge_bounded hrt (hpos p (List.mem_cons_self p rest)) h

/-- The state after the charge side of a committed trade. -/
def charge_state (st : OptState) (c : ℕ) (ca tc : ℚ) : OptState :=
  { st with
    actions := st.actions.set c ca
    state_of_energy := apply_charge st.state_of_energy c ca tc }

/-- The state after a fully committed trade. -/
def commit_state (trades : List Trade) (tc rc : ℚ) (st : OptState) (t : Trade)
    (ca : ℚ) : OptState :=
  let plan := build_plan trades t st.discharge_capacities ca
  let st2 := exec_discharges rc (charge_state st t.charge_hour ca tc) plan
  { st2 with
    energy_for_discharge := st2.energy_for_discharge - ca
    committed := st2.committed ++ plan.map fun p => (t.charge_hour, p.1) }

/-- `trade_step` either leaves the state unchanged (the `continue` and
failed-80%-check branches) or commits the trade with a strictly
positive charge amount taken at a charge hour whose action was zero. -/
theorem trade_step_eq_or (trades : List Trade) (tc rc mcr : ℚ) (st : OptState)
    (t : Trade) :
    trade_step trades tc rc mcr st t = st ∨
      (st.actions.getD t.charge_hour 0 = 0 ∧
        0 < min mcr (tc - st.state_of_energy.getD t.charge_hour 0) ∧
        trade_step trades tc rc mcr st t =
          commit_state trades tc rc st t
            (min mcr (tc - st.state_of_energy.getD t.charge_hour 0))) := by
  rw [trade_step]
  rcases Decidable.em (st.actions.getD t.charge_hour 0 ≠ 0) with hne | hne
  · rw [if_pos hne]; exact Or.inl rfl
  · rw [if_neg hne]
    simp only []
    rcases Decidable.em
        (min mcr (tc - st.state_of_energy.getD t.charge_hour 0) ≤ 0) with hle | hle
    · rw [if_pos hle]; exact Or.inl rfl
    · rw [if_neg hle]
      rcases Decidable.em
          (build_plan trades t st.discharge_capacities
              (min mcr (tc - st.state_of_energy.getD t.charge_hour 0)) ≠ [] ∧
            min mcr (tc - st.state_of_energy.getD t.charge_hour 0) * (4/5) ≤
              plan_total (build_plan trades t st.discharge_capacities
                (min mcr (tc - st.state_of_energy.getD t.charge_hour 0)))) with
        hex | hex
      · rw [if_pos hex]
        exact Or.inr ⟨not_not.mp hne, lt_of_not_le hle, rfl⟩
      · rw [if_neg hex]; exact Or.inl rfl

theorem commit_state_soe (trades : List Trade) (tc rc : ℚ) (st : OptState)
    (t : Trade) (ca : ℚ) :
    (commit_state trades tc rc st t ca).state_of_energy =
      (exec_discharges rc (charge_state st t.charge_hour ca tc)
        (build_plan trades t st.discharge_capacities ca)).state_of_energy := rfl

theorem commit_state_committed (trades : List Trade) (tc rc : ℚ) (st : OptState)
    (t : Trade) (ca : ℚ) :
    (commit_state trades tc rc st t ca).committed =
      (exec_discharges rc (charge_state st t.charge_hour ca tc)
          (build_plan trades t st.discharge_capacities ca)).committed ++
        (build_plan trades t st.discharge_capacities ca).map
          (fun p => (t.charge_hour, p.1)) := rfl

theorem trade_step_soe_bounded {trades : List Trade} {tc rc mcr : ℚ}
    {st : OptState} {t : Trade} (hrt : rc ≤ tc)
    (h : soe_bounded rc tc st.state_of_energy) :
    soe_bounded rc tc (trade_step trades tc rc mcr st t).state_of_energy := by
  rcases trade_step_eq_or trades tc rc mcr st t with he | ⟨_, hca, he⟩
  · rw [he]; exact h
  · rw [he, commit_state]
    simp only []
    refine exec_discharges_soe_bounded hrt ?_ ?_
    · intro p hp
      exact le_of_lt (build_plan_mem hca hp).1
    · exact apply_charge_bounded hrt (le_of_lt hca) h

theorem run_trades_soe_bounded {trades : List Trade} {tc rc mcr : ℚ}
    (hrt : rc ≤ tc) :
    ∀ {ts : List Trade} {st : OptState}, soe_bounded rc tc st.state_of_energy →
      soe_bounded rc tc (run_trades trades tc rc mcr ts st).state_of_energy := by
  intro ts
  induction ts with
  | nil => intro st h; simpa [run_trades] using h
  | cons t rest ih =>
    intro st h
    rw [run_trades]
    rcases Decidable.em (st.energy_for_discharge ≤ 0) with h0 | h0
    · rw [if_pos h0]; exact h
    · rw [if_neg h0]
      exact ih (trade_step_soe_bounded hrt h)


theorem init_state_soe_bounded {n : ℕ} {tc rc hc : ℚ} (hrt : rc ≤ tc) :
    soe_bounded rc tc (init_state n tc rc hc).state_of_energy := by
  intro x hx
  rw [List.eq_of_mem_replicate hx]
  exact ⟨le_refl rc, hrt⟩

/-- C1.  For every price list and every configuration with
`reserved_capacity ≤ total_capacity`, every entry of the
`state_of_energy` trajectory returned by `optimize_battery` lies
between `reserved_capacity` and `total_capacity` inclusive. -/
theorem C1_soe_bounds (prices : List ℚ) (tc rc cc hc mcr : ℚ) (hrt : rc ≤ tc) :
    ∀ x ∈ (optimize_battery prices tc rc cc hc mcr).state_of_energy,
      rc ≤ x ∧ x ≤ tc := by
  intro x hx
  exact run_trades_soe_bounded hrt (init_state_soe_bounded hrt) x hx

/-- Witness for C1 at a concrete input (prices `[1, 2]`, source-default
configuration): the second trajectory entry is within `[3, 30]`. -/
theorem C1_soe_bounds_witness :
    (3:ℚ) ≤ (optimize_battery [1, 2] 30 3 (1/2) (26/5) 6).state_of_energy.getD 1 0 ∧
      (optimize_battery [1, 2] 30 3 (1/2) (26/5) 6).state_of_energy.getD 1 0 ≤ 30 :=
  C1_soe_bounds [1, 2] 30 3 (1/2) (26/5) 6 (by norm_num) _ (by norm_num [optimize_battery, optimize_battery_state, find_profitable_trades, all_trades, bubble_sort, bubble_pass, create_trade, run_trades, trade_step, build_plan, build_secondary, exec_discharges, discharge_step, init_state, charge_state, commit_state, plan_total, apply_charge, apply_discharge, update_from, List.range_succ])

/-- Concrete run of the optimizer on prices `[1, 2]` with the source's
default configuration, used to discharge witness hypotheses. -/
theorem eval_state_12 :
    optimize_battery_state [1, 2] 30 3 (1/2) (26/5) 6 =
      { state_of_energy := [3, 9, 19/5]
        actions := [6, -(26/5)]
        discharge_capacities := [26/5, 0]
        energy_for_discharge := 21
        committed := [(0, 1)] } := by
  norm_num [optimize_battery_state, find_profitable_trades, all_trades,
    bubble_sort, bubble_pass, create_trade, run_trades, trade_step, build_plan,
    build_secondary, exec_discharges, discharge_step, init_state, charge_state, commit_state,
    plan_total, apply_charge, apply_discharge, update_from, List.range_succ,
    List.replicate, List.set]

/-! ### The trajectory's first entry (claim C2) -/

theorem update_from_getD_zero (start : ℕ) (f : ℚ → ℚ) (l : List ℚ) :
    (update_from start f 0 l).getD 0 0 = l.getD 0 0 := by
  cases l with
  | nil => rfl
  | cons v rest =>
    rw [update_from, if_neg (Nat.not_lt_zero start)]
    rfl

theorem exec_discharges_soe_getD_zero (rc : ℚ) :
    ∀ (plan : List (ℕ × ℚ)) (st : OptState),
      (exec_discharges rc st plan).state_of_energy.getD 0 0 =
        st.state_of_energy.getD 0 0 := by
  intro plan
  induction plan with
  | nil => intro st; rfl
  | cons p rest ih =>
    intro st
    rw [exec_discharges, List.foldl_cons]
    rw [show (List.foldl _ _ rest : OptState) = exec_discharges rc _ rest from rfl]
    rw [ih]
    exact update_from_getD_zero _ _ _

theorem trade_step_soe_getD_zero (trades : List Trade) (tc rc mcr : ℚ)
    (st : OptState) (t : Trade) :
    (trade_step trades tc rc mcr st t).state_of_energy.getD 0 0 =
      st.state_of_energy.getD 0 0 := by
  rcases trade_step_eq_or trades tc rc mcr st t with he | ⟨_, _, he⟩
  · rw [he]
  · rw [he, commit_state_soe, exec_discharges_soe_getD_zero]
    exact update_from_getD_zero _ _ _

theorem run_trades_soe_getD_zero (trades : List Trade) (tc rc mcr : ℚ) :
    ∀ (ts : List Trade) (st : OptState),
      (run_trades trades tc rc mcr ts st).state_of_energy.getD 0 0 =
        st.state_of_energy.getD 0 0 := by
  intro ts
  induction ts with
  | nil => intro st; rfl
  | cons t rest ih =>
    intro st
    rw [run_trades]
    rcases Decidable.em (st.energy_for_discharge ≤ 0) with h0 | h0
    · rw [if_pos h0]
    · rw [if_neg h0, ih, trade_step_soe_getD_zero]

/-- C2.  The trajectory returned by `optimize_battery` always starts at
`reserved_capacity`: the function has no `initial_soc` parameter (the
facade and the repo's own `test_initial_soc_behavior` pass one and
expect `soe[0] = total * initial_soc/100`, i.e. `15` for 50% with the
default configuration, but the code pins `soe[0]` to
`reserved_capacity`, here `3`). -/
theorem C2_soe_starts_at_reserved :
    (∀ (prices : List ℚ) (tc rc cc hc mcr : ℚ),
        (optimize_battery prices tc rc cc hc mcr).state_of_energy.getD 0 0 = rc) ∧
      (optimize_battery (List.replicate 24 1) 30 3 (1/2) (9/2)
          6).state_of_energy.getD 0 0 ≠ 15 := by
  have hgen : ∀ (prices : List ℚ) (tc rc cc hc mcr : ℚ),
      (optimize_battery prices tc rc cc hc mcr).state_of_energy.getD 0 0 = rc := by
    intro prices tc rc cc hc mcr
    show (run_trades (find_profitable_trades prices (cc) (1/5)) tc rc mcr
        (find_profitable_trades prices (cc) (1/5))
        (init_state prices.length tc rc hc)).state_of_energy.getD 0 0 = rc
    rw [run_trades_soe_getD_zero]
    exact getD_replicate (Nat.succ_pos _)
  refine ⟨hgen, ?_⟩
  rw [hgen]
  norm_num

/-! ### Committed trade pairs (claim C4) -/

theorem exec_discharges_committed (rc : ℚ) :
    ∀ (plan : List (ℕ × ℚ)) (st : OptState),
      (exec_discharges rc st plan).committed = st.committed := by
  intro plan
  induction plan with
  | nil => intro st; rfl
  | cons p rest ih =>
    intro st
    rw [exec_discharges, List.foldl_cons]
    rw [show (List.foldl _ _ rest : OptState) = exec_discharges rc _ rest from rfl]
    rw [ih]
    rfl

/-- A committed (charge hour, discharge hour) pair is chronological and
clears the `0.2` profit threshold used by `find_profitable_trades`. -/
def good_pair (prices : List ℚ) (cc : ℚ) (pr : ℕ × ℕ) : Prop :=
  pr.1 < pr.2 ∧ 1/5 ≤ prices.getD pr.2 0 - prices.getD pr.1 0 - cc

theorem trades_good_pair {prices : List ℚ} {cc : ℚ} {t : Trade}
    (h : t ∈ find_profitable_trades prices cc (1/5)) :
    good_pair prices cc (t.charge_hour, t.discharge_hour) := by
  rcases find_profitable_trades_mem h with ⟨hmem, hthr⟩
  rcases all_trades_mem hmem with ⟨h1, _, h3, h4, h5⟩
  refine ⟨h1, ?_⟩
  show 1/5 ≤ prices.getD t.discharge_hour 0 - prices.getD t.charge_hour 0 - cc
  rw [← h3, ← h4]
  rw [h5] at hthr
  exact hthr

theorem run_trades_committed_good {prices : List ℚ} {cc tc rc mcr : ℚ} :
    ∀ {ts : List Trade} {st : OptState},
      (∀ t ∈ ts, t ∈ find_profitable_trades prices cc (1/5)) →
      (∀ pr ∈ st.committed, good_pair prices cc pr) →
      ∀ pr ∈ (run_trades (find_profitable_trades prices cc (1/5)) tc rc mcr ts
          st).committed, good_pair prices cc pr := by
  intro ts
  induction ts with
  | nil => intro st _ hst pr hpr; exact hst pr hpr
  | cons t rest ih =>
    intro st hts hst pr hpr
    rw [run_trades] at hpr
    rcases Decidable.em (st.energy_for_discharge ≤ 0) with h0 | h0
    · rw [if_pos h0] at hpr; exact hst pr hpr
    · rw [if_neg h0] at hpr
      refine ih (fun u hu => hts u (List.mem_cons_of_mem _ hu)) ?_ pr hpr
      intro q hq
      rcases trade_step_eq_or (find_profitable_trades prices cc (1/5)) tc rc mcr
          st t with he | ⟨_, hca, he⟩
      · rw [he] at hq; exact hst q hq
      · rw [he, commit_state_committed, exec_discharges_committed] at hq
        rcases List.mem_append.mp hq with hl | hr
        · exact hst q hl
        · rcases List.mem_map.mp hr with ⟨p, hp, rfl⟩
          have ht : t ∈ find_profitable_trades prices cc (1/5) :=
            hts t (List.mem_cons_self t rest)
          rcases (build_plan_mem hca hp).2.2 with hprim | ⟨s, hs, hceq, hdeq⟩
          · rw [hprim]
            exact trades_good_pair ht
          · rw [← hdeq, ← hceq]
            exact trades_good_pair hs

/-- C4.  Every (charge hour, discharge hour) pair committed by
`optimize_battery` — primary or secondary discharge alike — is strictly
chronological and has net profit `price[d] - price[c] - cycle_cost` of
at least `0.2`: the threshold `find_profitable_trades` applies (its
default, numerically the same `0.2` the facade configures at its call
site). -/
theorem C4_committed_trades (prices : List ℚ) (tc rc cc hc mcr : ℚ) :
    ∀ pr ∈ (optimize_battery_state prices tc rc cc hc mcr).committed,
      pr.1 < pr.2 ∧
        1/5 ≤ prices.getD pr.2 0 - prices.getD pr.1 0 - cc := by
  intro pr hpr
  exact run_trades_committed_good (fun t ht => ht) (by simp [init_state]) pr hpr

/-- Witness for C4: with prices `[1, 2]` and the default configuration
the pair `(0, 1)` is committed; the theorem yields chronology and the
profit bound there. -/
theorem C4_committed_trades_witness :
    (0:ℕ) < 1 ∧ (1/5 : ℚ) ≤
      ([1, 2] : List ℚ).getD 1 0 - ([1, 2] : List ℚ).getD 0 0 - 1/2 :=
  C4_committed_trades [1, 2] 30 3 (1/2) (26/5) 6 (0, 1)
    (by rw [eval_state_12]; simp)

/-! ### Per-hour action and capacity invariant (claims C5, C6) -/

/-- Invariant of the placement loop: every action is bounded above by
`max_charge_rate` (or `0` before any charge), each in-range hour's
remaining discharge capacity never exceeds `hourly_consumption`, is
nonnegative once touched, and the capacity consumed at an hour bounds
that hour's action from below. -/
def caps_actions_inv (hc mcr : ℚ) (st : OptState) : Prop :=
  (∀ h, st.actions.getD h 0 ≤ max mcr 0) ∧
  (∀ h, h < st.discharge_capacities.length →
    st.discharge_capacities.getD h 0 ≤ hc ∧
    (0 ≤ st.discharge_capacities.getD h 0 ∨
      st.discharge_capacities.getD h 0 = hc) ∧
    st.discharge_capacities.getD h 0 - hc ≤ st.actions.getD h 0) ∧
  st.actions.length = st.discharge_capacities.length

theorem init_state_inv {n : ℕ} {tc rc hc mcr : ℚ} :
    caps_actions_inv hc mcr (init_state n tc rc hc) := by
  refine ⟨?_, ?_, by simp [init_state]⟩
  · intro h
    rcases Nat.lt_or_ge h n with hn | hn
    · rw [show (init_state n tc rc hc).actions = List.replicate n 0 from rfl,
        getD_replicate hn]
      exact le_max_right mcr 0
    · rw [show (init_state n tc rc hc).actions = List.replicate n 0 from rfl,
        getD_of_length_le (by simpa using hn)]
      exact le_max_right mcr 0
  · intro h hlen
    rw [show (init_state n tc rc hc).discharge_capacities =
      List.replicate n hc from rfl] at hlen ⊢
    rw [show (init_state n tc rc hc).actions = List.replicate n 0 from rfl]
    rw [List.length_replicate] at hlen
    rw [getD_replicate hlen, getD_replicate hlen]
    exact ⟨le_refl hc, Or.inr rfl, by linarith⟩

theorem discharge_step_actions (rc : ℚ) (s : OptState) (p : ℕ × ℚ) :
    (discharge_step rc s p).actions =
      s.actions.set p.1 (s.actions.getD p.1 0 - p.2) := rfl

theorem discharge_step_caps (rc : ℚ) (s : OptState) (p : ℕ × ℚ) :
    (discharge_step rc s p).discharge_capacities =
      s.discharge_capacities.set p.1
        (s.discharge_capacities.getD p.1 0 - p.2) := rfl

theorem charge_state_actions (st : OptState) (c : ℕ) (ca tc : ℚ) :
    (charge_state st c ca tc).actions = st.actions.set c ca := rfl

theorem charge_state_caps (st : OptState) (c : ℕ) (ca tc : ℚ) :
    (charge_state st c ca tc).discharge_capacities =
      st.discharge_capacities := rfl

theorem exec_discharges_inv {hc mcr rc : ℚ} :
    ∀ {plan : List (ℕ × ℚ)} {st : OptState},
      caps_actions_inv hc mcr st →
      (∀ p ∈ plan, 0 < p.2 ∧ p.2 ≤ st.discharge_capacities.getD p.1 0) →
      (plan.map Prod.fst).Nodup →
      caps_actions_inv hc mcr (exec_discharges rc st plan) := by
  intro plan
  induction plan with
  | nil => intro st hinv _ _; exact hinv
  | cons p rest ih =>
    intro st hinv hpos hnd
    rcases hinv with ⟨hA, hB, hlen⟩
    rcases hpos p (List.mem_cons_self p rest) with ⟨hp1, hp2⟩
    have hdlt : p.1 < st.discharge_capacities.length := by
      by_contra hge
      rw [getD_of_length_le (Nat.le_of_not_lt hge)] at hp2
      linarith
    have halt : p.1 < st.actions.length := hlen ▸ hdlt
    rw [List.map_cons, List.nodup_cons] at hnd
    rw [show exec_discharges rc st (p :: rest) =
      exec_discharges rc (discharge_step rc st p) rest from rfl]
    refine ih ⟨?_, ?_, ?_⟩ ?_ hnd.2
    · intro h
      rw [discharge_step_actions]
      rcases Decidable.em (p.1 = h) with rfl | hne
      · rw [getD_set_self halt]
        linarith [hA p.1]
      · rw [getD_set_ne hne]
        exact hA h
    · intro h hl
      rw [discharge_step_caps, List.length_set] at hl
      rw [discharge_step_caps, discharge_step_actions]
      rcases hB h hl with ⟨hb1, hb2, hb3⟩
      rcases Decidable.em (p.1 = h) with rfl | hne
      · rw [getD_set_self hdlt, getD_set_self halt]
        exact ⟨by linarith, Or.inl (by linarith), by linarith⟩
      · rw [getD_set_ne hne, getD_set_ne hne]
        exact ⟨hb1, hb2, hb3⟩
    · rw [discharge_step_actions, discharge_step_caps, List.length_set,
        List.length_set]
      exact hlen
    · intro q hq
      rcases hpos q (List.mem_cons_of_mem _ hq) with ⟨hq1, hq2⟩
      have hqne : p.1 ≠ q.1 := fun he =>
        hnd.1 (he ▸ List.mem_map_of_mem Prod.fst hq)
      refine ⟨hq1, ?_⟩
      rw [discharge_step_caps, getD_set_ne hqne]
      exact hq2

theorem trade_step_inv {trades : List Trade} {tc rc hc mcr : ℚ}
    {st : OptState} {t : Trade} (hnd : (trades.map tkey).Nodup)
    (hinv : caps_actions_inv hc mcr st) :
    caps_actions_inv hc mcr (trade_step trades tc rc mcr st t) := by
  rcases trade_step_eq_or trades tc rc mcr st t with he | ⟨hz, hca, he⟩
  · rw [he]; exact hinv
  · rw [he]
    rcases hinv with ⟨hA, hB, hlen⟩
    have hca' : min mcr (tc - st.state_of_energy.getD t.charge_hour 0) ≤ mcr :=
      min_le_left _ _
    have hch : caps_actions_inv hc mcr
        (charge_state st t.charge_hour
          (min mcr (tc - st.state_of_energy.getD t.charge_hour 0)) tc) := by
      refine ⟨?_, ?_, ?_⟩
      · intro h
        rw [charge_state_actions]
        rcases Decidable.em (t.charge_hour = h) with rfl | hne
        · rcases Nat.lt_or_ge t.charge_hour st.actions.length with hl | hl
          · rw [getD_set_self hl]
            exact le_trans hca' (le_max_left mcr 0)
          · rw [List.set_eq_of_length_le hl]
            exact hA t.charge_hour
        · rw [getD_set_ne hne]
          exact hA h
      · intro h hl
        rw [charge_state_caps] at hl
        rw [charge_state_caps, charge_state_actions]
        rcases hB h hl with ⟨hb1, hb2, hb3⟩
        rcases Decidable.em (t.charge_hour = h) with rfl | hne
        · rcases Nat.lt_or_ge t.charge_hour st.actions.length with hl2 | hl2
          · rw [getD_set_self hl2]
            rw [hz] at hb3
            exact ⟨hb1, hb2, by linarith⟩
          · rw [List.set_eq_of_length_le hl2]
            exact ⟨hb1, hb2, hb3⟩
        · rw [getD_set_ne hne]
          exact ⟨hb1, hb2, hb3⟩
      · rw [charge_state_actions, charge_state_caps, List.length_set]
        exact hlen
    have hexec : caps_actions_inv hc mcr
        (exec_discharges rc
          (charge_state st t.charge_hour
            (min mcr (tc - st.state_of_energy.getD t.charge_hour 0)) tc)
          (build_plan trades t st.discharge_capacities
            (min mcr (tc - st.state_of_energy.getD t.charge_hour 0)))) := by
      refine exec_discharges_inv hch ?_ (build_plan_hours_nodup hnd)
      intro p hp
      have hm := build_plan_mem hca hp
      rw [charge_state_caps]
      exact ⟨hm.1, hm.2.1⟩
    exact hexec

theorem run_trades_inv {trades : List Trade} {tc rc hc mcr : ℚ}
    (hnd : (trades.map tkey).Nodup) :
    ∀ {ts : List Trade} {st : OptState}, caps_actions_inv hc mcr st →
      caps_actions_inv hc mcr (run_trades trades tc rc mcr ts st) := by
  intro ts
  induction ts with
  | nil => intro st h; exact h
  | cons t rest ih =>
    intro st h
    rw [run_trades]
    rcases Decidable.em (st.energy_for_discharge ≤ 0) with h0 | h0
    · rw [if_pos h0]; exact h
    · rw [if_neg h0]
      exact ih (trade_step_inv hnd h)

theorem optimize_battery_state_inv (prices : List ℚ) (tc rc cc hc mcr : ℚ) :
    caps_actions_inv hc mcr (optimize_battery_state prices tc rc cc hc mcr) :=
  run_trades_inv (find_profitable_trades_key_nodup prices cc (1/5)) init_state_inv

/-- Negative actions are bounded below by the consumed discharge
capacity, which never exceeds `hourly_consumption`. -/
theorem state_neg_action_bound (prices : List ℚ) (tc rc cc hc mcr : ℚ) (h : ℕ)
    (hneg : (optimize_battery_state prices tc rc cc hc mcr).actions.getD h 0 < 0) :
    -((optimize_battery_state prices tc rc cc hc mcr).actions.getD h 0) ≤ hc := by
  rcases optimize_battery_state_inv prices tc rc cc hc mcr with ⟨_, hB, hlen⟩
  rcases Nat.lt_or_ge h
      (optimize_battery_state prices tc rc cc hc mcr).discharge_capacities.length
    with hl | hl
  · rcases hB h hl with ⟨_, hb2, hb3⟩
    rcases hb2 with hge | heqc
    · linarith
    · rw [heqc] at hb3
      linarith
  · rw [getD_of_length_le (hlen ▸ hl)] at hneg
    linarith

/-- C5.  Any hour with a negative planned action discharges at most
`hourly_consumption` (the code's uniform per-hour consumption): no
export to the grid. -/
theorem C5_discharge_le_consumption (prices : List ℚ) (tc rc cc hc mcr : ℚ)
    (h : ℕ)
    (hneg : (optimize_battery prices tc rc cc hc mcr).actions.getD h 0 < 0) :
    |(optimize_battery prices tc rc cc hc mcr).actions.getD h 0| ≤ hc := by
  have heq : (optimize_battery prices tc rc cc hc mcr).actions =
      (optimize_battery_state prices tc rc cc hc mcr).actions := rfl
  rw [heq] at hneg ⊢
  rw [abs_of_neg hneg]
  exact state_neg_action_bound prices tc rc cc hc mcr h hneg

/-- Witness for C5 at prices `[1, 2]` with the default configuration:
hour 1 discharges `5.2`, which is within the consumption `5.2`. -/
theorem C5_discharge_le_consumption_witness :
    |(optimize_battery [1, 2] 30 3 (1/2) (26/5) 6).actions.getD 1 0| ≤ 26/5 :=
  C5_discharge_le_consumption [1, 2] 30 3 (1/2) (26/5) 6 1
    (by rw [show (optimize_battery [1, 2] 30 3 (1/2) (26/5) 6).actions =
          (optimize_battery_state [1, 2] 30 3 (1/2) (26/5) 6).actions from rfl,
        eval_state_12]; norm_num)

/-- C6 (amended).  When the uniform hourly consumption is nonnegative
and does not exceed the max charge rate — as in every configuration the
repo ships — every action is bounded in magnitude by the max charge
rate.  (Without `hc ≤ mcr` the bound fails: see the counterexample.) -/
theorem C6_power_bound (prices : List ℚ) (tc rc cc hc mcr : ℚ)
    (h1 : 0 ≤ hc) (h2 : hc ≤ mcr) (h : ℕ) :
    |(optimize_battery prices tc rc cc hc mcr).actions.getD h 0| ≤ mcr := by
  have heq : (optimize_battery prices tc rc cc hc mcr).actions =
      (optimize_battery_state prices tc rc cc hc mcr).actions := rfl
  rw [heq]
  rcases optimize_battery_state_inv prices tc rc cc hc mcr with ⟨hA, _, _⟩
  rcases le_or_lt 0
      ((optimize_battery_state prices tc rc cc hc mcr).actions.getD h 0) with
    hge | hlt
  · rw [abs_of_nonneg hge]
    have hm : max mcr 0 = mcr := max_eq_left (le_trans h1 h2)
    have := hA h
    linarith [hA h, hm ▸ hA h]
  · rw [abs_of_neg hlt]
    have := state_neg_action_bound prices tc rc cc hc mcr h hlt
    linarith

/-- Witness for C6 (amended) at prices `[1, 2]`, default configuration
(`hc = 5.2 ≤ 6 = mcr`): hour 0's action is within `6`. -/
theorem C6_power_bound_witness :
    |(optimize_battery [1, 2] 30 3 (1/2) (26/5) 6).actions.getD 0 0| ≤ 6 :=
  C6_power_bound [1, 2] 30 3 (1/2) (26/5) 6 (by norm_num) (by norm_num) 0

/-- Concrete run on prices `[1, 1, 5]` with hourly consumption `12`
exceeding the max charge rate `6`: two trades discharge into hour 2. -/
theorem eval_state_115 :
    optimize_battery_state [1, 1, 5] 30 3 (1/2) 12 6 =
      { state_of_energy := [3, 9, 15, 3]
        actions := [6, 6, -12]
        discharge_capacities := [12, 12, 0]
        energy_for_discharge := 15
        committed := [(0, 2), (1, 2)] } := by
  norm_num [optimize_battery_state, find_profitable_trades, all_trades,
    bubble_sort, bubble_pass, create_trade, run_trades, trade_step, build_plan,
    build_secondary, exec_discharges, discharge_step, init_state, charge_state,
    commit_state, plan_total, apply_charge, apply_discharge, update_from,
    List.range_succ, List.replicate, List.set]

/-- Counterexample to C6 as stated: with prices `[1, 1, 5]`, hourly
consumption `12` and max charge rate `6`, hour 2 discharges `12`,
exceeding the effective max power `6`. -/
theorem C6_power_bound_counterexample :
    (optimize_battery [1, 1, 5] 30 3 (1/2) 12 6).actions.getD 2 0 = -12 ∧
      ¬ |(optimize_battery [1, 1, 5] 30 3 (1/2) 12 6).actions.getD 2 0| ≤ 6 := by
  have heq : (optimize_battery [1, 1, 5] 30 3 (1/2) 12 6).actions =
      (optimize_battery_state [1, 1, 5] 30 3 (1/2) 12 6).actions := rfl
  rw [heq, eval_state_115]
  norm_num

/-! ### Cost accounting (claim C3) -/

/-- C3 (amended).  If the optimizer commits no trade (all actions are
zero) then `base_cost - optimized_cost = 0`.  The converse and the
claimed `base_cost - optimized_cost ≥ 0` are refuted by
`C3_savings_counterexample`. -/
theorem C3_savings_zero_of_no_trades (prices : List ℚ) (tc rc cc hc mcr : ℚ)
    (hz : ∀ a ∈ (optimize_battery prices tc rc cc hc mcr).actions, a = 0) :
    (optimize_battery prices tc rc cc hc mcr).cost_savings = 0 := by
  have hact : ∀ h : ℕ,
      (optimize_battery_state prices tc rc cc hc mcr).actions.getD h 0 = 0 := by
    intro h
    rcases Nat.lt_or_ge h
        (optimize_battery_state prices tc rc cc hc mcr).actions.length with hl | hl
    · exact hz _ (getD_mem hl)
    · exact getD_of_length_le hl
  have hkey : ((List.range prices.length).map fun h =>
      (hour_cost (prices.getD h 0)
        ((optimize_battery_state prices tc rc cc hc mcr).actions.getD h 0)
        hc cc).base_cost) =
      ((List.range prices.length).map fun h =>
        (hour_cost (prices.getD h 0)
          ((optimize_battery_state prices tc rc cc hc mcr).actions.getD h 0)
          hc cc).total_cost) := by
    refine List.map_congr_left ?_
    intro h _
    rw [hact h]
    show hc * prices.getD h 0 =
      (if (0:ℚ) ≤ 0 then (hc + 0) * prices.getD h 0
        else max 0 (hc + 0) * prices.getD h 0) +
      (if (0:ℚ) ≤ 0 then (0:ℚ) * cc else 0)
    rw [if_pos (le_refl (0:ℚ)), if_pos (le_refl (0:ℚ))]
    ring
  show (((List.range prices.length).map fun h =>
      hour_cost (prices.getD h 0)
        ((optimize_battery_state prices tc rc cc hc mcr).actions.getD h 0)
        hc cc).map fun c => c.base_cost).sum -
    (((List.range prices.length).map fun h =>
      hour_cost (prices.getD h 0)
        ((optimize_battery_state prices tc rc cc hc mcr).actions.getD h 0)
        hc cc).map fun c => c.total_cost).sum = 0
  rw [List.map_map, List.map_map]
  simp only [Function.comp_def]
  rw [hkey]
  exact sub_self _

/-- Concrete run on flat prices `[1, 1]`: no profitable trade exists,
so the state is untouched. -/
theorem eval_state_11 :
    optimize_battery_state [1, 1] 30 3 (1/2) (26/5) 6 =
      { state_of_energy := [3, 3, 3]
        actions := [0, 0]
        discharge_capacities := [26/5, 26/5]
        energy_for_discharge := 27
        committed := [] } := by
  norm_num [optimize_battery_state, find_profitable_trades, all_trades,
    bubble_sort, bubble_pass, create_trade, run_trades, trade_step, build_plan,
    build_secondary, exec_discharges, discharge_step, init_state, charge_state,
    commit_state, plan_total, apply_charge, apply_discharge, update_from,
    List.range_succ, List.replicate, List.set]

/-- Witness for C3 (amended): flat prices `[1, 1]` yield all-zero
actions and zero savings. -/
theorem C3_savings_zero_of_no_trades_witness :
    (optimize_battery [1, 1] 30 3 (1/2) (26/5) 6).cost_savings = 0 :=
  C3_savings_zero_of_no_trades [1, 1] 30 3 (1/2) (26/5) 6
    (by rw [show (optimize_battery [1, 1] 30 3 (1/2) (26/5) 6).actions =
          (optimize_battery_state [1, 1] 30 3 (1/2) (26/5) 6).actions from rfl,
        eval_state_11]
        simp)

/-- Counterexample to C3 as stated: at prices `[10, 10.75]` (default
configuration) the committed trade makes total savings negative, and at
prices `[2, 3]` with hourly consumption `5` the committed trade's
savings are exactly zero although the actions are nonzero — refuting
both `base_cost - optimized_cost ≥ 0` and the "zero iff no trade"
equivalence.  All quantities at the second input are dyadic, so the
cancellation is exact in binary floating point as well: the charge
costs `6·(2 + 0.5) = 15` and the discharge saves `5·3 = 15`. -/
theorem C3_savings_counterexample :
    (optimize_battery [10, 43/4] 30 3 (1/2) (26/5) 6).cost_savings < 0 ∧
      (optimize_battery [2, 3] 30 3 (1/2) 5 6).cost_savings = 0 ∧
      ¬ (∀ a ∈ (optimize_battery [2, 3] 30 3 (1/2) 5 6).actions, a = 0) := by
  refine ⟨?_, ?_, ?_⟩
  · norm_num [optimize_battery, optimize_battery_state, find_profitable_trades,
      all_trades, bubble_sort, bubble_pass, create_trade, run_trades, trade_step,
      build_plan, build_secondary, exec_discharges, discharge_step, init_state,
      charge_state, commit_state, plan_total, apply_charge, apply_discharge,
      update_from, hour_cost, List.range_succ, List.replicate, List.set]
  · norm_num [optimize_battery, optimize_battery_state, find_profitable_trades,
      all_trades, bubble_sort, bubble_pass, create_trade, run_trades, trade_step,
      build_plan, build_secondary, exec_discharges, discharge_step, init_state,
      charge_state, commit_state, plan_total, apply_charge, apply_discharge,
      update_from, hour_cost, List.range_succ, List.replicate, List.set]
  · intro hall
    have h0 := hall ((optimize_battery [2, 3] 30 3 (1/2) 5 6).actions.getD 0 0)
    rw [show (optimize_battery [2, 3] 30 3 (1/2) 5 6).actions =
        (optimize_battery_state [2, 3] 30 3 (1/2) 5 6).actions from rfl] at h0
    have he : optimize_battery_state [2, 3] 30 3 (1/2) 5 6 =
        { state_of_energy := [3, 9, 4]
          actions := [6, -5]
          discharge_capacities := [5, 0]
          energy_for_discharge := 21
          committed := [(0, 1)] } := by
      norm_num [optimize_battery_state, find_profitable_trades, all_trades,
        bubble_sort, bubble_pass, create_trade, run_trades, trade_step,
        build_plan, build_secondary, exec_discharges, discharge_step, init_state,
        charge_state, commit_state, plan_total, apply_charge, apply_discharge,
        update_from, List.range_succ, List.replicate, List.set]
    rw [he] at h0
    norm_num at h0

/-! ### Schedule (`schedule.py`) and Growatt projector (`growatt_schedule.py`) -/

/-- The per-hour state tag derived from an action's sign. -/
inductive ScheduleState
  | charging
  | discharging
  | standby
deriving DecidableEq, Repr

/-- Determine the hour's state tag as `_create_hourly_intervals` does. -/
def schedule_state (action : ℚ) : ScheduleState :=
  if 0 < action then ScheduleState.charging
  else if action < 0 then ScheduleState.discharging
  else ScheduleState.standby

/-- An interval dictionary from `create_interval` in `schedule.py`;
`HH:MM` time strings are modelled as (hour, minute) pairs. -/
structure HourInterval where
  start_time : ℕ × ℕ
  end_time : ℕ × ℕ
  state : ScheduleState
  action : ℚ
  state_of_energy : ℚ
deriving DecidableEq, Repr

/-- `Schedule._create_hourly_intervals`: one interval per hour,
`[HH:00, HH:59]`, state from the action's sign. -/
def create_hourly_intervals (actions state_of_energy : List ℚ) :
    List HourInterval :=
  (List.range actions.length).map fun hour =>
    { start_time := (hour, 0)
      end_time := (hour, 59)
      state := schedule_state (actions.getD hour 0)
      action := actions.getD hour 0
      state_of_energy := state_of_energy.getD hour 0 }

/-- The parts of the `Schedule` object the claims touch (the cost
fields computed by `SavingsCalculator` are not needed here). -/
structure ScheduleData where
  actions : List ℚ
  state_of_energy : List ℚ
  intervals : List HourInterval
deriving DecidableEq, Repr

/-- `Schedule.set_optimization_results` restricted to the fields above:
store the vectors and derive the hourly intervals. -/
def set_optimization_results (actions state_of_energy : List ℚ) : ScheduleData :=
  { actions := actions
    state_of_energy := state_of_energy
    intervals := create_hourly_intervals actions state_of_energy }

/-- The dictionary returned by `Schedule.get_hour_settings`. -/
structure HourSettings where
  state : ScheduleState
  action : ℚ
  state_of_energy : ℚ
deriving DecidableEq, Repr

/-- `Schedule.get_hour_settings`: out-of-range hours give a safe
standby default, in-range hours read the interval. -/
def get_hour_settings (s : ScheduleData) (hour : ℕ) : HourSettings :=
  match s.intervals[hour]? with
  | some iv =>
      { state := iv.state, action := iv.action
        state_of_energy := iv.state_of_energy }
  | none =>
      { state := ScheduleState.standby, action := 0
        state_of_energy := s.state_of_energy.getD 0 0 }

/-- The dictionary returned by
`GrowattScheduleManager.get_hourly_settings`. -/
structure GrowattHourlySettings where
  grid_charge : Bool
  discharge_rate : ℕ
deriving DecidableEq, Repr

/-- `GrowattScheduleManager.get_hourly_settings`: without a schedule the
safe default; otherwise `grid_charge` iff the hour's state is charging
and `discharge_rate` 100 iff it is discharging. -/
def get_hourly_settings (sched : Option ScheduleData) (hour : ℕ) :
    GrowattHourlySettings :=
  match sched with
  | none => { grid_charge := false, discharge_rate := 0 }
  | some s =>
      let settings := get_hour_settings s hour
      { grid_charge := decide (settings.state = ScheduleState.charging)
        discharge_rate :=
          if settings.state = ScheduleState.discharging then 100 else 0 }

/-- C9.  Round-trip through the projector: for every schedule and every
in-range hour, the per-hour inverter settings reproduce the hour's
state tag — `grid_charge` exactly for charging, `discharge_rate = 100`
exactly for discharging, and both off for idle hours. -/
theorem C9_hourly_settings_round_trip (actions soe : List ℚ) (h : ℕ)
    (hlt : h < actions.length) :
    ((get_hourly_settings (some (set_optimization_results actions soe))
          h).grid_charge = true ↔
        schedule_state (actions.getD h 0) = ScheduleState.charging) ∧
      ((get_hourly_settings (some (set_optimization_results actions soe))
            h).discharge_rate = 100 ↔
        schedule_state (actions.getD h 0) = ScheduleState.discharging) ∧
      (schedule_state (actions.getD h 0) = ScheduleState.standby →
        (get_hourly_settings (some (set_optimization_results actions soe))
            h).grid_charge = false ∧
          (get_hourly_settings (some (set_optimization_results actions soe))
            h).discharge_rate = 0) := by
  have hiv : (set_optimization_results actions soe).intervals[h]? =
      some { start_time := (h, 0), end_time := (h, 59)
             state := schedule_state (actions.getD h 0)
             action := actions.getD h 0
             state_of_energy := soe.getD h 0 } := by
    rw [set_optimization_results]
    rw [create_hourly_intervals, List.getElem?_map, List.getElem?_range hlt]
    rfl
  rw [get_hourly_settings]
  simp only [get_hour_settings, hiv]
  rcases hs : schedule_state (actions.getD h 0) with _ | _ | _
  · simp [hs]
  · simp [hs]
  · simp [hs]

/-- Witness for C9 at `actions = [5, -2, 0]`, hour 1 (a discharging
hour). -/
theorem C9_hourly_settings_round_trip_witness :
    ((get_hourly_settings (some (set_optimization_results [5, -2, 0] [3, 8, 6, 6]))
          1).grid_charge = true ↔
        schedule_state (([5, -2, 0] : List ℚ).getD 1 0) =
          ScheduleState.charging) ∧
      ((get_hourly_settings (some (set_optimization_results [5, -2, 0] [3, 8, 6, 6]))
            1).discharge_rate = 100 ↔
        schedule_state (([5, -2, 0] : List ℚ).getD 1 0) =
          ScheduleState.discharging) ∧
      (schedule_state (([5, -2, 0] : List ℚ).getD 1 0) =
          ScheduleState.standby →
        (get_hourly_settings (some (set_optimization_results [5, -2, 0] [3, 8, 6, 6]))
            1).grid_charge = false ∧
          (get_hourly_settings (some (set_optimization_results [5, -2, 0] [3, 8, 6, 6]))
            1).discharge_rate = 0) :=
  C9_hourly_settings_round_trip [5, -2, 0] [3, 8, 6, 6] 1 (by norm_num)

/-- Growatt inverter battery mode. -/
inductive BattMode
  | battery_first
  | load_first
deriving DecidableEq, Repr

/-- A detailed Growatt interval dictionary
(`create_detailed_interval`); times are (hour, minute) pairs. -/
structure DetailedInterval where
  segment_id : ℕ
  batt_mode : BattMode
  start_time : ℕ × ℕ
  end_time : ℕ × ℕ
  enabled : Bool
  grid_charge : Bool
  discharge_rate : ℕ
deriving DecidableEq, Repr

def create_detailed_interval (segment_id : ℕ) (batt_mode : BattMode)
    (start_time end_time : ℕ × ℕ) (enabled grid_charge : Bool)
    (discharge_rate : ℕ) : DetailedInterval :=
  { segment_id := segment_id
    batt_mode := batt_mode
    start_time := start_time
    end_time := end_time
    enabled := enabled
    grid_charge := grid_charge
    discharge_rate := discharge_rate }

/-- The loop of `_consolidate_and_convert` over
`hourly_intervals[1:]`, carrying `(hour, start_time, current_action,
detailed)`; the charging/discharging flags are recomputed from
`current_action` exactly as the source updates them in lockstep. -/
def consolidate_loop :
    List HourInterval → ℕ → (ℕ × ℕ) → ℚ → List DetailedInterval →
      (ℕ × ℕ) × ℚ × List DetailedInterval
  | [], _, start_time, current_action, detailed =>
      (start_time, current_action, detailed)
  | next :: rest, hour, start_time, current_action, detailed =>
      let is_charging : Bool := decide (0 < current_action)
      let is_discharging : Bool := decide (current_action < 0)
      let next_action := next.action
      let next_is_charging : Bool := decide (0 < next_action)
      let next_is_discharging : Bool := decide (next_action < 0)
      let behavior_changed : Bool :=
        (is_charging != next_is_charging) ||
        (is_discharging != next_is_discharging) ||
        (decide (current_action = 0) && decide (next_action ≠ 0)) ||
        (decide (current_action ≠ 0) && decide (next_action = 0))
      let needs_wake_up : Bool :=
        next_is_charging && !is_charging && decide (0 < hour)
      if behavior_changed then
        let end_time : ℕ × ℕ :=
          if needs_wake_up then (hour - 1, 44)
          else if hour = 24 then (23, 44)
          else (hour - 1, 59)
        let detailed1 :=
          if start_time ≠ end_time then
            detailed ++ [create_detailed_interval (detailed.length + 1)
              (if is_discharging then BattMode.load_first
                else BattMode.battery_first)
              start_time end_time true is_charging
              (if is_discharging then 100 else 0)]
          else detailed
        let detailed2 :=
          if needs_wake_up then
            detailed1 ++ [create_detailed_interval (detailed1.length + 1)
              BattMode.load_first (hour - 1, 45) (hour - 1, 59) true false 0]
          else detailed1
        consolidate_loop rest (hour + 1) next.start_time next_action detailed2
      else
        consolidate_loop rest (hour + 1) start_time next_action detailed

/-- `GrowattScheduleManager._consolidate_and_convert`, detailed-interval
phase: walk the hourly intervals, close segments on behavior changes
(with 15-minute wake-up windows before charging), append the final
regular segment ending `23:44` and the mandatory `23:45–23:59`
load-first segment. -/
def consolidate (hourly : List HourInterval) : List DetailedInterval :=
  match hourly with
  | [] => []
  | first :: rest =>
      let r := consolidate_loop rest 1 first.start_time first.action []
      let start_time := r.1
      let current_action := r.2.1
      let detailed := r.2.2
      let is_charging : Bool := decide (0 < current_action)
      let is_discharging : Bool := decide (current_action < 0)
      let detailed1 :=
        if start_time ≠ (23, 44) then
          detailed ++ [create_detailed_interval (detailed.length + 1)
            (if is_discharging then BattMode.load_first
              else BattMode.battery_first)
            start_time (23, 44) true is_charging
            (if is_discharging then 100 else 0)]
        else detailed
      detailed1 ++ [create_detailed_interval (detailed1.length + 1)
        BattMode.load_first (23, 45) (23, 59) true false 0]

/-- Through the consolidation loop the carried `start_time` is always
an hour boundary `HH:00` when every input interval starts on one. -/
theorem consolidate_loop_start_snd :
    ∀ (l : List HourInterval) (hr : ℕ) (stt : ℕ × ℕ) (ca : ℚ)
      (det : List DetailedInterval),
      (∀ iv ∈ l, iv.start_time.2 = 0) → stt.2 = 0 →
      (consolidate_loop l hr stt ca det).1.2 = 0 := by
  intro l
  induction l with
  | nil => intro hr stt ca det _ hs; exact hs
  | cons next rest ih =>
    intro hr stt ca det hl hs
    rw [consolidate_loop]
    simp only []
    split
    · exact ih _ _ _ _ (fun iv hiv => hl iv (List.mem_cons_of_mem _ hiv))
        (hl next (List.mem_cons_self next rest))
    · exact ih _ _ _ _ (fun iv hiv => hl iv (List.mem_cons_of_mem _ hiv)) hs

/-- C8.  For every 24-hour schedule the detailed interval list ends
with the mandatory `23:45–23:59` load-first segment, and the regular
segment immediately before it ends at `23:44`, whatever the last hour's
state is. -/
theorem C8_day_end_segments (actions soe : List ℚ)
    (hlen : actions.length = 24) :
    ∃ (l : List DetailedInterval) (k1 k2 : ℕ) (m : BattMode) (s : ℕ × ℕ)
      (g : Bool) (r : ℕ),
      consolidate (create_hourly_intervals actions soe) =
        l ++ [create_detailed_interval k1 m s (23, 44) true g r,
          create_detailed_interval k2 BattMode.load_first (23, 45) (23, 59)
            true false 0] := by
  have hstarts : ∀ iv ∈ create_hourly_intervals actions soe,
      iv.start_time.2 = 0 := by
    intro iv hiv
    rcases List.mem_map.mp hiv with ⟨hour, _, rfl⟩
    rfl
  rcases hiv : create_hourly_intervals actions soe with _ | ⟨first, rest⟩
  · exfalso
    have : (create_hourly_intervals actions soe).length = 24 := by
      rw [create_hourly_intervals, List.length_map, List.length_range, hlen]
    rw [hiv] at this
    simp at this
  · rw [consolidate]
    have hsnd : (consolidate_loop rest 1 first.start_time first.action []).1.2
        = 0 := by
      refine consolidate_loop_start_snd rest 1 first.start_time first.action []
        ?_ ?_
      · intro iv hiv2
        exact hstarts iv (hiv ▸ List.mem_cons_of_mem _ hiv2)
      · exact hstarts first (hiv ▸ List.mem_cons_self first rest)
    have hne : (consolidate_loop rest 1 first.start_time first.action []).1 ≠
        ((23, 44) : ℕ × ℕ) := by
      intro he
      rw [he] at hsnd
      simp at hsnd
    rw [if_pos hne]
    refine ⟨(consolidate_loop rest 1 first.start_time first.action []).2.2,
      (consolidate_loop rest 1 first.start_time first.action []).2.2.length + 1,
      (consolidate_loop rest 1 first.start_time first.action []).2.2.length + 2,
      (if decide ((consolidate_loop rest 1 first.start_time
            first.action []).2.1 < 0) = true then BattMode.load_first
        else BattMode.battery_first),
      (consolidate_loop rest 1 first.start_time first.action []).1,
      decide (0 < (consolidate_loop rest 1 first.start_time first.action []).2.1),
      (if decide ((consolidate_loop rest 1 first.start_time
            first.action []).2.1 < 0) = true then 100 else 0), ?_⟩
    rw [List.append_assoc]
    simp [create_detailed_interval, List.length_append]

/-- Witness for C8: an all-idle 24-hour schedule. -/
theorem C8_day_end_segments_witness :
    ∃ (l : List DetailedInterval) (k1 k2 : ℕ) (m : BattMode) (s : ℕ × ℕ)
      (g : Bool) (r : ℕ),
      consolidate (create_hourly_intervals (List.replicate 24 0)
          (List.replicate 25 3)) =
        l ++ [create_detailed_interval k1 m s (23, 44) true g r,
          create_detailed_interval k2 BattMode.load_first (23, 45) (23, 59)
            true false 0] :=
  C8_day_end_segments (List.replicate 24 0) (List.replicate 25 3) (by norm_num)

/-! ### Consumption tracker (`consumption_manager.py`, claim C7) -/

/-- The mutable state of `ConsumptionManager` used by the claim:
24-slot predictions and the `_actual_consumption` dict, modelled as an
insertion-ordered association list. -/
structure ConsumptionState where
  predictions : List ℚ
  actual_consumption : List (ℕ × ℚ)
deriving DecidableEq, Repr

/-- Python dict assignment `d[k] = v`: replace in place or append. -/
def dict_set : List (ℕ × ℚ) → ℕ → ℚ → List (ℕ × ℚ)
  | [], k, v => [(k, v)]
  | (k', v') :: rest, k, v =>
      if k' = k then (k', v) :: rest else (k', v') :: dict_set rest k v

/-- `ConsumptionManager._update_predictions`: with at least three
recorded samples, take `sorted(values)[-3:]` — the three largest
values — average them, and overwrite every later hour's prediction. -/
def update_predictions (current_hour : ℕ) (st : ConsumptionState) :
    ConsumptionState :=
  if st.actual_consumption.length < 3 then st
  else
    let values := st.actual_consumption.map Prod.snd
    let sorted_values := List.insertionSort (· ≤ ·) values
    let recent_values := sorted_values.drop (sorted_values.length - 3)
    let new_prediction := recent_values.sum / (recent_values.length : ℚ)
    { st with
      predictions :=
        update_from current_hour (fun _ => new_prediction) 0 st.predictions }

/-- `ConsumptionManager.update_consumption` on the path without a
battery-SoC sample (`energy_change` is `None`): validate, clamp the
grid import to `min_valid`, record it, then update predictions.
Validation failures raise, modelled as `none`. -/
def update_consumption (st : ConsumptionState) (hour : ℕ) (grid_import : ℚ)
    (min_valid : ℚ) : Option ConsumptionState :=
  if 23 < hour then none
  else if grid_import < 0 then none
  else
    let actual := max min_valid grid_import
    let st1 : ConsumptionState :=
      { st with actual_consumption := dict_set st.actual_consumption hour actual }
    some (update_predictions hour st1)

/-- C7.  After samples `10, 1, 2, 3` at hours `0..3`, the prediction
written for the future hours is `(2 + 3 + 10)/3 = 5` — the mean of the
three LARGEST samples (`sorted(values)[-3:]`) — not the mean
`(1 + 2 + 3)/3 = 2` of the three most recent samples that the spec (and
the code's own `recent_values` naming) describe. -/
theorem C7_predictions_use_largest_not_recent :
    (((update_consumption ⟨List.replicate 24 (9/2), []⟩ 0 10 0).bind fun s1 =>
      (update_consumption s1 1 1 0).bind fun s2 =>
      (update_consumption s2 2 2 0).bind fun s3 =>
      update_consumption s3 3 3 0).map fun s => s.predictions.getD 4 0) =
        some 5 ∧
      (5 : ℚ) ≠ (1 + 2 + 3) / 3 := by
  constructor
  · norm_num [update_consumption, update_predictions, dict_set, update_from,
      List.insertionSort, List.orderedInsert, List.replicate, Option.bind]
  · norm_num

/-! ### Phase/power guard (`power_monitor.py`, claim C10) -/

/-- `HomePowerMonitor.calculate_available_charging_power`: headroom of
the most loaded phase as a percentage, clipped to the configured
charging power rate and to zero. -/
def calculate_available_charging_power
    (l1 l2 l3 voltage max_power_per_phase charging_power_rate : ℚ) : ℚ :=
  let w1 := l1 * voltage
  let w2 := l2 * voltage
  let w3 := l3 * voltage
  let l1_pct := w1 / max_power_per_phase * 100
  let l2_pct := w2 / max_power_per_phase * 100
  let l3_pct := w3 / max_power_per_phase * 100
  let max_load_pct := max (max l1_pct l2_pct) l3_pct
  let available_pct := 100 - max_load_pct
  let charging_power_pct := min available_pct charging_power_rate
  max 0 charging_power_pct

/-- Python `int(...)`: truncation toward zero. -/
def rat_trunc (q : ℚ) : ℤ := if q < 0 then -(Int.floor (-q)) else Int.floor q

/-- `HomePowerMonitor.adjust_battery_charging`: no write while grid
charging is disabled; otherwise step the current setpoint toward the
computed target, bounded by `step_size`, and write only when the step
reaches `step_size`.  The write (if any) is the returned value; the
current setpoint is an integer because the controller getter returns
`int`. -/
def adjust_battery_charging (grid_charge_enabled : Bool) (current_power : ℤ)
    (step_size : ℤ)
    (l1 l2 l3 voltage max_power_per_phase charging_power_rate : ℚ) :
    Option ℤ :=
  if grid_charge_enabled = false then none
  else
    let target_power := calculate_available_charging_power l1 l2 l3 voltage
      max_power_per_phase charging_power_rate
    let new_power : ℚ :=
      if (current_power : ℚ) < target_power then
        min ((current_power : ℚ) + (step_size : ℚ)) target_power
      else
        max ((current_power : ℚ) - (step_size : ℚ)) target_power
    if (step_size : ℚ) ≤ |new_power - (current_power : ℚ)| then
      some (rat_trunc new_power)
    else none

theorem rat_trunc_intCast (n : ℤ) : rat_trunc (n : ℚ) = n := by
  rw [rat_trunc]
  rcases Decidable.em ((n : ℚ) < 0) with hn | hn
  · rw [if_pos hn]
    rw [show (-(n : ℚ)) = ((-n : ℤ) : ℚ) by push_cast; ring]
    rw [Int.floor_intCast]
    ring
  · rw [if_neg hn, Int.floor_intCast]

/-- C10.  One invocation of the phase guard changes the inverter
charging-power setpoint by at most `step_size`: nothing is written when
grid charging is disabled, a written value differs from the current
setpoint by at most `step_size`, and no write happens when the bounded
step toward the target is below `step_size` (in particular whenever
`|target - current| < step_size`). -/
theorem C10_adjust_bounded_step (enabled : Bool) (current step : ℤ)
    (l1 l2 l3 v mppp rate : ℚ) (hstep : 0 < step) :
    (enabled = false →
      adjust_battery_charging enabled current step l1 l2 l3 v mppp rate =
        none) ∧
    (∀ z : ℤ,
      adjust_battery_charging enabled current step l1 l2 l3 v mppp rate =
        some z → |z - current| ≤ step) ∧
    (|calculate_available_charging_power l1 l2 l3 v mppp rate - (current : ℚ)| <
        (step : ℚ) →
      adjust_battery_charging enabled current step l1 l2 l3 v mppp rate =
        none) := by
  refine ⟨?_, ?_, ?_⟩
  · intro he
    rw [adjust_battery_charging, if_pos he]
  · intro z hz
    rcases Decidable.em (enabled = false) with he | he
    · rw [adjust_battery_charging, if_pos he] at hz
      exact absurd hz (by simp)
    · rw [adjust_battery_charging, if_neg he] at hz
      simp only [] at hz
      rcases Decidable.em ((current : ℚ) <
          calculate_available_charging_power l1 l2 l3 v mppp rate) with hc | hc
      · rw [if_pos hc] at hz
        rcases Decidable.em ((step : ℚ) ≤
            |min ((current : ℚ) + (step : ℚ))
                (calculate_available_charging_power l1 l2 l3 v mppp rate) -
              (current : ℚ)|) with hw | hw
        · rw [if_pos hw] at hz
          have hmin : min ((current : ℚ) + (step : ℚ))
              (calculate_available_charging_power l1 l2 l3 v mppp rate) =
              (current : ℚ) + (step : ℚ) := by
            rcases min_cases ((current : ℚ) + (step : ℚ))
                (calculate_available_charging_power l1 l2 l3 v mppp rate) with
              ⟨hm, _⟩ | ⟨hm, hle⟩
            · exact hm
            · rw [hm] at hw
              rw [abs_of_pos (by linarith)] at hw
              have : (step : ℚ) ≤ 0 := by linarith
              exfalso
              have hq : (0 : ℚ) < (step : ℚ) := by exact_mod_cast hstep
              linarith
          rw [hmin] at hz
          rw [show ((current : ℚ) + (step : ℚ)) = ((current + step : ℤ) : ℚ)
            by push_cast; ring, rat_trunc_intCast] at hz
          have hzz : z = current + step := by
            injection hz with h2
            exact h2.symm
          rw [hzz]
          rw [show current + step - current = step by ring]
          rw [abs_of_pos hstep]
        · rw [if_neg hw] at hz
          exact absurd hz (by simp)
      · rw [if_neg hc] at hz
        rcases Decidable.em ((step : ℚ) ≤
            |max ((current : ℚ) - (step : ℚ))
                (calculate_available_charging_power l1 l2 l3 v mppp rate) -
              (current : ℚ)|) with hw | hw
        · rw [if_pos hw] at hz
          have hq : (0 : ℚ) < (step : ℚ) := by exact_mod_cast hstep
          have hmax : max ((current : ℚ) - (step : ℚ))
              (calculate_available_charging_power l1 l2 l3 v mppp rate) =
              (current : ℚ) - (step : ℚ) := by
            rcases max_cases ((current : ℚ) - (step : ℚ))
                (calculate_available_charging_power l1 l2 l3 v mppp rate) with
              ⟨hm, _⟩ | ⟨hm, hle⟩
            · exact hm
            · rw [hm] at hw
              have hle2 : calculate_available_charging_power l1 l2 l3 v mppp
                  rate ≤ (current : ℚ) := le_of_not_lt hc
              rw [abs_of_nonpos (by linarith)] at hw
              exfalso
              linarith
          rw [hmax] at hz
          rw [show ((current : ℚ) - (step : ℚ)) = ((current - step : ℤ) : ℚ)
            by push_cast; ring, rat_trunc_intCast] at hz
          have hzz : z = current - step := by
            injection hz with h2
            exact h2.symm
          rw [hzz]
          rw [show current - step - current = -step by ring]
          rw [abs_neg, abs_of_pos hstep]
        · rw [if_neg hw] at hz
          exact absurd hz (by simp)
  · intro hsmall
    rcases Decidable.em (enabled = false) with he | he
    · rw [adjust_battery_charging, if_pos he]
    · rw [adjust_battery_charging, if_neg he]
      simp only []
      have hq : (0 : ℚ) < (step : ℚ) := by exact_mod_cast hstep
      rcases Decidable.em ((current : ℚ) <
          calculate_available_charging_power l1 l2 l3 v mppp rate) with hc | hc
      · rw [if_pos hc]
        have habs : |calculate_available_charging_power l1 l2 l3 v mppp rate -
            (current : ℚ)| =
            calculate_available_charging_power l1 l2 l3 v mppp rate -
              (current : ℚ) := abs_of_pos (by linarith)
        rw [habs] at hsmall
        have hmin : min ((current : ℚ) + (step : ℚ))
            (calculate_available_charging_power l1 l2 l3 v mppp rate) =
            calculate_available_charging_power l1 l2 l3 v mppp rate :=
          min_eq_right (by linarith)
        rw [hmin]
        rw [if_neg ?_]
        rw [abs_of_pos (by linarith)]
        intro hcon
        linarith
      · rw [if_neg hc]
        have hle2 : calculate_available_charging_power l1 l2 l3 v mppp rate ≤
            (current : ℚ) := le_of_not_lt hc
        have habs : |calculate_available_charging_power l1 l2 l3 v mppp rate -
            (current : ℚ)| =
            (current : ℚ) -
              calculate_available_charging_power l1 l2 l3 v mppp rate := by
          rw [abs_of_nonpos (by linarith)]
          ring
        rw [habs] at hsmall
        have hmax : max ((current : ℚ) - (step : ℚ))
            (calculate_available_charging_power l1 l2 l3 v mppp rate) =
            calculate_available_charging_power l1 l2 l3 v mppp rate :=
          max_eq_right (by linarith)
        rw [hmax]
        rw [if_neg ?_]
        rw [abs_of_nonpos (by linarith)]
        intro hcon
        linarith

/-- Witness for C10: three phases at 10 A, 230 V, 4600 W per-phase
cap, 40% configured rate, current setpoint 50, step 5: the guard steps
down to 45, a change of exactly the step size. -/
theorem C10_adjust_bounded_step_witness :
    adjust_battery_charging true 50 5 10 10 10 230 4600 40 = some 45 ∧
      |(45 : ℤ) - 50| ≤ 5 := by
  have heval : adjust_battery_charging true 50 5 10 10 10 230 4600 40 =
      some 45 := by
    norm_num [adjust_battery_charging, calculate_available_charging_power,
      rat_trunc]
  exact ⟨heval, (C10_adjust_bounded_step true 50 5 10 10 10 230 4600 40
    (by norm_num)).2.1 45 heval⟩

end BatteryManager
